import Mathlib

/-!
Classification of function changes in gompatible (`func.go`).

A shallow embedding of `func.go` and a verification of its classification
rules.  Go values are embedded as follows.

* A `types.Type` is observed by the code only through `String()`; it is kept as
  a record of an object identity and that rendering.
* A `*types.Tuple` is a list of variables; the nil tuple is the empty list
  (`Len` of a nil tuple is `0`).
* A `[]*types.Var` is either the nil slice or a backing list of pointers, each
  of which is nil (`none`) or points to a variable.
* A run-time panic (index out of range, negative `make` length) is the value
  `none` of the outer `Option` returned by every function that can reach one.
-/

namespace Gompatible

/-! ## Data model -/

/-- A `types.Type`: the identity of the type object and the text that
`String()` returns for it. -/
structure GoType where
  ident : Nat
  string : String
deriving DecidableEq, Repr

/-- A `*types.Var`: a named, typed parameter or result. -/
structure Var where
  name : String
  typ : GoType
deriving DecidableEq, Repr

/-- A `*types.Tuple`: the ordered variables of a parameter or result list. -/
abbrev Tuple := List Var

/-- `(*types.Tuple).Len`. -/
def Tuple.Len (t : Tuple) : Nat := t.length

/-- `(*types.Tuple).At`: the `i`-th variable; out of range panics (`none`). -/
def Tuple.At (t : Tuple) (i : Nat) : Option Var := t.get? i

/-- A `*types.Signature`, as far as `func.go` reads it: `Params()`,
`Results()` and `Variadic()`. -/
structure Signature where
  params : Tuple
  results : Tuple
  variadic : Bool
deriving DecidableEq, Repr

/-- A `*types.Func` object, as far as `func.go` reads it: the text
`types.ObjectString(obj, nil)` renders for it, and `obj.Type()`, which is nil
(`none`) or a `*types.Signature`. -/
structure TypesFunc where
  objectString : String
  type : Option Signature
deriving DecidableEq, Repr

/-- Modelled from the spec: the declaration of `Func` is not in `func.go`.  A
function declaration owns a reference to its enclosing package, a reference to
its documentation node, and the type-checked object carrying its signature. -/
structure Func where
  Package : String
  Doc : String
  Types : TypesFunc
deriving DecidableEq, Repr

/-- Modelled from the spec: the declaration of `ChangeKind` and of its five
constants is not in `func.go`. -/
inductive ChangeKind where
  | ChangeUnchanged
  | ChangeAdded
  | ChangeRemoved
  | ChangeCompatible
  | ChangeBreaking
deriving DecidableEq, Repr

open ChangeKind

/-- `FuncChange` represents a change between functions; either side may be a
nil pointer. -/
structure FuncChange where
  Before : Option Func
  After : Option Func
deriving DecidableEq, Repr

/-- A `[]*types.Var`: the nil slice, or a slice over a list of pointers. -/
inductive VarSlice where
  | nil : VarSlice
  | elems (vs : List (Option Var)) : VarSlice
deriving DecidableEq, Repr

/-- Go `len` of a slice. -/
def VarSlice.len : VarSlice → Nat
  | .nil => 0
  | .elems vs => vs.length

/-- Go `extra == nil`. -/
def VarSlice.isNil : VarSlice → Bool
  | .nil => true
  | .elems _ => false

/-- `make([]*types.Var, n)`: `n` nil pointers; a negative `n` panics. -/
def makeVars (n : Int) : Option (List (Option Var)) :=
  if n < 0 then none else some (List.replicate n.toNat none)

/-- `vars[k] = v`: out of range panics. -/
def setVar (vars : List (Option Var)) (k : Int) (v : Var) : Option (List (Option Var)) :=
  if 0 ≤ k ∧ k < (vars.length : Int) then some (vars.set k.toNat (some v)) else none

/-! ## `tuplesCompatibleExtra` -/

/-- The loop `for i := 0; i < len2; i++ { ... }` of `tuplesCompatibleExtra`,
from the state `(i, vars)`.  The first argument is the number of iterations
still to run, `len2 - i`: the guard `i < len2` holds exactly when it is a
successor. -/
def tuplesLoop (p1 p2 : Tuple) (len1 : Nat) : Nat → Nat → List (Option Var) → Option VarSlice
  | 0, _, vars => some (.elems vars)
  | n + 1, i, vars =>
    if i < len1 then
      match p1.At i with
      | none => none
      | some v1 =>
        match p2.At i with
        | none => none
        | some v2 =>
          if v1.typ.string != v2.typ.string then some .nil
          else tuplesLoop p1 p2 len1 n (i + 1) vars
    else
      match p2.At i with
      | none => none
      | some v2 =>
        match setVar vars ((i : Int) - (len1 : Int)) v2 with
        | none => none
        | some vars1 => tuplesLoop p1 p2 len1 n (i + 1) vars1

/-- `tuplesCompatibleExtra(p1, p2)`. -/
def tuplesCompatibleExtra (p1 p2 : Tuple) : Option VarSlice :=
  let len1 := p1.Len
  let len2 := p2.Len
  if len1 > len2 then some .nil
  else
    match makeVars ((len2 : Int) - (len1 : Int)) with
    | none => none
    | some vars => tuplesLoop p1 p2 len1 len2 0 vars

/-! ## Signature rules -/

/-- `sigParamsCompatible(s1, s2)`. -/
def sigParamsCompatible (s1 s2 : Signature) : Option Bool :=
  match tuplesCompatibleExtra s1.params s2.params with
  | none => none
  | some extra =>
    if extra.isNil then some false
    else if extra.len = 0 then some true
    else if extra.len = 1 then
      if s1.variadic == false && s2.variadic == true then some true else some false
    else some false

/-- `sigResultsCompatible(s1, s2)`. -/
def sigResultsCompatible (s1 s2 : Signature) : Option Bool :=
  if s1.results.Len = 0 then some true
  else
    match tuplesCompatibleExtra s1.results s2.results with
    | none => none
    | some extra =>
      if extra.isNil then some false
      else if extra.len = 0 then some true
      else some false

/-! ## Classification -/

/-- `FuncChange.isCompatible`. -/
def FuncChange.isCompatible (fc : FuncChange) : Option Bool :=
  match fc.Before, fc.After with
  | none, _ => some false
  | _, none => some false
  | some before, some after =>
    match before.Types.type, after.Types.type with
    | none, _ => some false
    | _, none => some false
    | some sigBefore, some sigAfter =>
      match sigParamsCompatible sigBefore sigAfter with
      | none => none
      | some false => some false
      | some true =>
        match sigResultsCompatible sigBefore sigAfter with
        | none => none
        | some false => some false
        | some true => some true

/-- `FuncChange.Kind`. -/
def FuncChange.Kind (fc : FuncChange) : Option ChangeKind :=
  match fc.Before, fc.After with
  | none, none => some ChangeUnchanged
  | none, some _ => some ChangeAdded
  | some _, none => some ChangeRemoved
  | some before, some after =>
    if before.Types.objectString = after.Types.objectString then some ChangeUnchanged
    else
      match fc.isCompatible with
      | none => none
      | some true => some ChangeCompatible
      | some false => some ChangeBreaking

/-! ## Specification vocabulary -/

/-- The type string at position `i` of a tuple, `p.At(i).Type().String()`, when
the position exists. -/
def typeStringAt (p : Tuple) (i : Nat) : Option String :=
  (p.At i).map (fun v => v.typ.string)

/-- The prefix condition of the tuple comparator: `p1` is no longer than `p2`
and the type strings agree at every position of `p1`. -/
def typePrefix (p1 p2 : Tuple) : Prop :=
  p1.Len ≤ p2.Len ∧ ∀ i, i < p1.Len → typeStringAt p1 i = typeStringAt p2 i

instance typePrefixDecidable (p1 p2 : Tuple) : Decidable (typePrefix p1 p2) := by
  unfold typePrefix
  infer_instance

/-- Both sides are present and `types.ObjectString` renders them alike. -/
def sameObjectString (fc : FuncChange) : Bool :=
  match fc.Before, fc.After with
  | some before, some after => decide (before.Types.objectString = after.Types.objectString)
  | _, _ => false

/-- The decision table of the classifier in the words of the specification:
one row per rule, a condition and the classification it gives, the last row
being the `otherwise` rule. -/
def kindTable (fc : FuncChange) : List (Bool × ChangeKind) :=
  [ (fc.Before.isNone && fc.After.isNone, ChangeUnchanged),
    (fc.Before.isNone && fc.After.isSome, ChangeAdded),
    (fc.Before.isSome && fc.After.isNone, ChangeRemoved),
    (sameObjectString fc, ChangeUnchanged),
    (fc.isCompatible == some true, ChangeCompatible),
    (true, ChangeBreaking) ]

/-- First match wins: the classification of the first row whose condition
holds. -/
def firstMatch (table : List (Bool × ChangeKind)) : Option ChangeKind :=
  (table.find? (fun row => row.1)).map (fun row => row.2)

/-- The reference definition of `IsCompatible` in the words of the
specification: false when either signature is absent or untyped, otherwise the
conjunction of the parameter rule and the result rule. -/
def isCompatibleRef (before after : Option Func) : Option Bool :=
  match before, after with
  | some b, some a =>
    match b.Types.type, a.Types.type with
    | some sigBefore, some sigAfter =>
      match sigParamsCompatible sigBefore sigAfter, sigResultsCompatible sigBefore sigAfter with
      | some paramsOK, some resultsOK => some (paramsOK && resultsOK)
      | _, _ => none
    | _, _ => some false
  | _, _ => some false

/-! ## Sample declarations -/

def tInt : GoType := ⟨1, "int"⟩
def tString : GoType := ⟨2, "string"⟩
def tBool : GoType := ⟨3, "bool"⟩
def tError : GoType := ⟨4, "error"⟩
def tStrings : GoType := ⟨5, "[]string"⟩
def tOptions : GoType := ⟨6, "[]Option"⟩

/-- `f(int) bool`. -/
def sigF : Signature := ⟨[⟨"", tInt⟩], [⟨"", tBool⟩], false⟩

/-- `g(int, ...string) bool`. -/
def sigGVariadic : Signature := ⟨[⟨"", tInt⟩, ⟨"", tStrings⟩], [⟨"", tBool⟩], true⟩

/-- `g(int, string) bool`. -/
def sigGPlain : Signature := ⟨[⟨"", tInt⟩, ⟨"", tString⟩], [⟨"", tBool⟩], false⟩

/-- `g(int, string, ...string) bool`. -/
def sigGTwoMore : Signature :=
  ⟨[⟨"", tInt⟩, ⟨"", tString⟩, ⟨"", tStrings⟩], [⟨"", tBool⟩], true⟩

/-- `f(int)`, no results. -/
def sigNoResult : Signature := ⟨[⟨"", tInt⟩], [], false⟩

/-- `g(int) string`. -/
def sigStringResult : Signature := ⟨[⟨"", tInt⟩], [⟨"", tString⟩], false⟩

/-- `f(int) int`. -/
def sigIntResult : Signature := ⟨[⟨"", tInt⟩], [⟨"", tInt⟩], false⟩

/-- `g(int) (int, error)`. -/
def sigIntErrorResult : Signature := ⟨[⟨"", tInt⟩], [⟨"", tInt⟩, ⟨"", tError⟩], false⟩

/-- `func Get(key string) (string, bool)`. -/
def getBefore : Func :=
  { Package := "kv", Doc := "Get looks up key.",
    Types :=
      { objectString := "func kv.Get(key string) (string, bool)",
        type := some ⟨[⟨"key", tString⟩], [⟨"", tString⟩, ⟨"", tBool⟩], false⟩ } }

/-- `func Get(key string, opts ...Option) (string, bool)`. -/
def getAfter : Func :=
  { Package := "kv", Doc := "Get looks up key.",
    Types :=
      { objectString := "func kv.Get(key string, opts ...Option) (string, bool)",
        type := some ⟨[⟨"key", tString⟩, ⟨"opts", tOptions⟩],
          [⟨"", tString⟩, ⟨"", tBool⟩], true⟩ } }

/-- A function whose type failed to resolve: `Type()` is nil. -/
def untypedFunc : Func :=
  { Package := "kv", Doc := "", Types := { objectString := "func kv.Get", type := none } }

/-- `func Get(key string) string`. -/
def getString : Func :=
  { Package := "kv", Doc := "Get looks up key.",
    Types :=
      { objectString := "func kv.Get(key string) string",
        type := some ⟨[⟨"key", tString⟩], [⟨"", tString⟩], false⟩ } }

/-- `func Get(key string) (string, error)`. -/
def getStringError : Func :=
  { Package := "kv", Doc := "Get looks up key.",
    Types :=
      { objectString := "func kv.Get(key string) (string, error)",
        type := some ⟨[⟨"key", tString⟩], [⟨"", tString⟩, ⟨"", tError⟩], false⟩ } }

/-- `func Get(key int) string`: the parameter of `Get` retyped. -/
def getIntKey : Func :=
  { Package := "kv", Doc := "Get looks up key.",
    Types :=
      { objectString := "func kv.Get(key int) string",
        type := some ⟨[⟨"key", tInt⟩], [⟨"", tString⟩], false⟩ } }

/-- `func Get() string`: the parameter of `Get` removed. -/
def getNoKey : Func :=
  { Package := "kv", Doc := "Get looks up key.",
    Types :=
      { objectString := "func kv.Get() string",
        type := some ⟨[], [⟨"", tString⟩], false⟩ } }

/-- `f(xs ...string)`: one variadic parameter, whose type is `[]string`. -/
def sigVariadicStrings : Signature := ⟨[⟨"xs", tStrings⟩], [], true⟩

/-- `f(xs []string)`: one slice parameter, not variadic. -/
def sigSliceStrings : Signature := ⟨[⟨"xs", tStrings⟩], [], false⟩

/-! ## Object strings and names -/

/-- The element type string of a slice type string: the text after the leading
`[]`. -/
def elemTypeString (s : String) : String := String.mk (s.data.drop 2)

/-- Modelled from the spec: `types.ObjectString` is not in `func.go`; the
canonical string is the full declared identity, name plus complete signature
text.  This is one variable of that text: its name, when it has one, and its
type string. -/
def renderVar (v : Var) : String :=
  if v.name = "" then v.typ.string else v.name ++ " " ++ v.typ.string

/-- Modelled from the spec: the final parameter of a variadic signature in the
signature text, written with `...` and its element type. -/
def renderVariadicVar (v : Var) : String :=
  if v.name = "" then "..." ++ elemTypeString v.typ.string
  else v.name ++ " ..." ++ elemTypeString v.typ.string

/-- Modelled from the spec: the parameter list of the signature text. -/
def renderParams (s : Signature) : String :=
  "(" ++ ", ".intercalate
    (if s.variadic then
      match s.params.getLast? with
      | none => []
      | some last => s.params.dropLast.map renderVar ++ [renderVariadicVar last]
    else s.params.map renderVar) ++ ")"

/-- Modelled from the spec: the result list of the signature text. -/
def renderResults (t : Tuple) : String :=
  match t with
  | [] => ""
  | [r] => if r.name = "" then " " ++ r.typ.string else " (" ++ renderVar r ++ ")"
  | rs => " (" ++ ", ".intercalate (rs.map renderVar) ++ ")"

/-- Modelled from the spec: `types.ObjectString(obj, nil)` of a function object
with the given package, name and type: the qualified name followed by the
complete signature text, or the qualified name alone when the type is nil. -/
def objectStringOf (pkg name : String) (type : Option Signature) : String :=
  "func " ++ pkg ++ "." ++ name ++
    match type with
    | none => ""
    | some s => renderParams s ++ renderResults s.results

/-- The `Func` of a declaration with the given package, name, documentation and
resolved type. -/
def declare (pkg name doc : String) (type : Option Signature) : Func :=
  { Package := pkg, Doc := doc,
    Types := { objectString := objectStringOf pkg name type, type := type } }

/-- Two tuples have the same type strings, in order. -/
def sameTypeStrings (t1 t2 : Tuple) : Bool :=
  decide (t1.map (fun v => v.typ.string) = t2.map (fun v => v.typ.string))

/-- Two signatures agree on the ordered parameter and result type strings and
on the variadic flag; the names of parameters and results are free. -/
def Signature.sameApartFromNames (s1 s2 : Signature) : Bool :=
  sameTypeStrings s1.params s2.params && sameTypeStrings s1.results s2.results &&
    decide (s1.variadic = s2.variadic)

/-- Two sides of a change agree on presence, on whether the type is resolved,
and on the signature apart from names; documentation is free. -/
def sideSameApartFromNames : Option Func → Option Func → Bool
  | none, none => true
  | some f1, some f2 =>
    match f1.Types.type, f2.Types.type with
    | none, none => true
    | some s1, some s2 => s1.sameApartFromNames s2
    | _, _ => false
  | _, _ => false

/-- Two changes agree on which sides are present and, side by side, on
everything but parameter names, result names and documentation. -/
def FuncChange.sameApartFromNames (fc1 fc2 : FuncChange) : Bool :=
  sideSameApartFromNames fc1.Before fc2.Before && sideSameApartFromNames fc1.After fc2.After

/-- `Get(key string) string`. -/
def sigGetKey : Signature := ⟨[⟨"key", tString⟩], [⟨"", tString⟩], false⟩

/-- `Get(k string) string`: the parameter of `sigGetKey` renamed. -/
def sigGetK : Signature := ⟨[⟨"k", tString⟩], [⟨"", tString⟩], false⟩

/-- The change from `func Get(key string) string` to the same declaration. -/
def getKept : FuncChange :=
  ⟨some (declare "kv" "Get" "" (some sigGetKey)), some (declare "kv" "Get" "" (some sigGetKey))⟩

/-- The change from `func Get(key string) string` to
`func Get(k string) string`. -/
def getRenamed : FuncChange :=
  ⟨some (declare "kv" "Get" "" (some sigGetKey)), some (declare "kv" "Get" "" (some sigGetK))⟩

/-! ## Call sites -/

/-- Call-site validity in the words of the claim, an argument list being given
by the type strings of its arguments: it is valid for a non-variadic signature
when it has one argument of each parameter type in order, and valid for a
variadic signature when it matches the non-final parameters in order followed
by zero or more arguments of the final parameter's element type. -/
def validCall (s : Signature) (args : List String) : Bool :=
  if s.variadic then
    match s.params.getLast? with
    | none => false
    | some last =>
      args.take (s.params.length - 1) == s.params.dropLast.map (fun v => v.typ.string) &&
        (args.drop (s.params.length - 1)).all (fun a => a == elemTypeString last.typ.string)
  else args == s.params.map (fun v => v.typ.string)

/-- The change from `func Join(xs ...string)` to `func Join(xs []string)`. -/
def joinVariadicToSlice : FuncChange :=
  ⟨some (declare "kv" "Join" "" (some sigVariadicStrings)),
    some (declare "kv" "Join" "" (some sigSliceStrings))⟩

/-! ## Instrumented run of `tuplesCompatibleExtra` -/

/-- One bounds-checked operation of `tuplesCompatibleExtra`: the allocation
`make([]*types.Var, n)`, a read `p1.At(i)` or `p2.At(i)`, or a write
`vars[k] = v2`. -/
inductive Access where
  | alloc (n : Int) : Access
  | atP1 (i : Nat) : Access
  | atP2 (i : Nat) : Access
  | write (k : Int) : Access
deriving DecidableEq, Repr

/-- The access is within bounds for tuples of lengths `n1` and `n2`: a
non-negative allocation, a read below the tuple's length, a write at an index
from `0` up to but excluding `n2 - n1`. -/
def Access.inBounds (n1 n2 : Nat) : Access → Bool
  | .alloc n => decide (0 ≤ n)
  | .atP1 i => decide (i < n1)
  | .atP2 i => decide (i < n2)
  | .write k => decide (0 ≤ k ∧ k < (n2 : Int) - (n1 : Int))

/-- What a run of `tuplesCompatibleExtra` did: its result (`none` is a panic),
the number of loop iterations it entered, and the bounds-checked operations it
performed, in order. -/
structure Run where
  result : Option VarSlice
  iterations : Nat
  accesses : List Access
deriving DecidableEq, Repr

/-- One more iteration, performing `ops`, before the rest of the run. -/
def Run.after (ops : List Access) (r : Run) : Run :=
  ⟨r.result, r.iterations + 1, ops ++ r.accesses⟩

/-- The loop of `tuplesCompatibleExtra` as in `tuplesLoop`, recording each
iteration entered and each operation performed. -/
def tuplesLoopRun (p1 p2 : Tuple) (len1 : Nat) : Nat → Nat → List (Option Var) → Run
  | 0, _, vars => ⟨some (.elems vars), 0, []⟩
  | n + 1, i, vars =>
    if i < len1 then
      match p1.At i with
      | none => ⟨none, 1, [.atP1 i]⟩
      | some v1 =>
        match p2.At i with
        | none => ⟨none, 1, [.atP1 i, .atP2 i]⟩
        | some v2 =>
          if v1.typ.string != v2.typ.string then ⟨some .nil, 1, [.atP1 i, .atP2 i]⟩
          else (tuplesLoopRun p1 p2 len1 n (i + 1) vars).after [.atP1 i, .atP2 i]
    else
      match p2.At i with
      | none => ⟨none, 1, [.atP2 i]⟩
      | some v2 =>
        match setVar vars ((i : Int) - (len1 : Int)) v2 with
        | none => ⟨none, 1, [.atP2 i, .write ((i : Int) - (len1 : Int))]⟩
        | some vars1 =>
          (tuplesLoopRun p1 p2 len1 n (i + 1) vars1).after
            [.atP2 i, .write ((i : Int) - (len1 : Int))]

/-- `tuplesCompatibleExtra(p1, p2)` as in `tuplesCompatibleExtra`, recording
the iterations and operations of the run. -/
def tuplesCompatibleExtraRun (p1 p2 : Tuple) : Run :=
  let len1 := p1.Len
  let len2 := p2.Len
  if len1 > len2 then ⟨some .nil, 0, []⟩
  else
    match makeVars ((len2 : Int) - (len1 : Int)) with
    | none => ⟨none, 0, [.alloc ((len2 : Int) - (len1 : Int))]⟩
    | some vars =>
      ⟨(tuplesLoopRun p1 p2 len1 len2 0 vars).result,
        (tuplesLoopRun p1 p2 len1 len2 0 vars).iterations,
        .alloc ((len2 : Int) - (len1 : Int)) :: (tuplesLoopRun p1 p2 len1 len2 0 vars).accesses⟩

/-! ## The loop of `tuplesCompatibleExtra` -/

theorem take_set_succ {α : Type} (l : List α) (k : Nat) (x : α) (h : k < l.length) :
    (l.set k x).take (k + 1) = l.take k ++ [x] := by
  induction l generalizing k with
  | nil => simp at h
  | cons a l ih =>
    cases k with
    | zero => simp
    | succ k => simp at h; simp [ih k h]

theorem typeStringAt_lt (p : Tuple) (i : Nat) (h : i < p.length) :
    typeStringAt p i = some (p[i].typ.string) := by
  simp [typeStringAt, Tuple.At, List.getElem?_eq_getElem h]

theorem makeVars_sub (len1 len2 : Nat) (h : len1 ≤ len2) :
    makeVars ((len2 : Int) - (len1 : Int)) = some (List.replicate (len2 - len1) none) := by
  have c : ¬ ((len2 : Int) - (len1 : Int) < 0) := by omega
  have e : ((len2 : Int) - (len1 : Int)).toNat = len2 - len1 := by omega
  simp only [makeVars, c, if_false, e]

/-- Past the shared prefix, the loop copies the rest of `p2` into `vars`. -/
theorem tuplesLoop_write (p1 p2 : Tuple) (len1 : Nat) :
    ∀ (n i : Nat) (vars : List (Option Var)), len1 ≤ i → n + i = p2.length →
      vars.length = p2.length - len1 →
      tuplesLoop p1 p2 len1 n i vars
        = some (.elems (vars.take (i - len1) ++ (p2.drop i).map some)) := by
  intro n
  induction n with
  | zero =>
    intro i vars h1 h2 h3
    have : i = p2.length := by omega
    subst this
    simp [tuplesLoop, ← h3]
  | succ n ih =>
    intro i vars h1 h2 h3
    have hi : i < p2.length := by omega
    have hk : i - len1 < vars.length := by omega
    have hlt : ¬ i < len1 := by omega
    have hset : setVar vars ((i : Int) - (len1 : Int)) p2[i]
        = some (vars.set (i - len1) (some p2[i])) := by
      have e : ((i : Int) - (len1 : Int)).toNat = i - len1 := by omega
      have c : 0 ≤ (i : Int) - (len1 : Int) ∧ (i : Int) - (len1 : Int) < (vars.length : Int) := by
        omega
      simp only [setVar, c, e]
      simp
    rw [tuplesLoop]
    simp only [hlt, if_false, Tuple.At, List.get?_eq_getElem?, List.getElem?_eq_getElem hi, hset]
    rw [ih (i + 1) _ (by omega) (by omega) (by simpa using h3)]
    have e2 : i + 1 - len1 = (i - len1) + 1 := by omega
    rw [e2, take_set_succ _ _ _ hk]
    conv_rhs => rw [List.drop_eq_getElem_cons hi]
    simp only [List.map_cons, List.append_assoc, List.singleton_append]

/-- When the type strings agree from `i` on, the loop ends with the tail of
`p2`. -/
theorem tuplesLoop_agree (p1 p2 : Tuple) (hle : p1.length ≤ p2.length) :
    ∀ (n i : Nat) (vars : List (Option Var)), i ≤ p1.length → n + i = p2.length →
      vars.length = p2.length - p1.length →
      (∀ j, i ≤ j → j < p1.length → typeStringAt p1 j = typeStringAt p2 j) →
      tuplesLoop p1 p2 p1.length n i vars
        = some (.elems ((p2.drop p1.length).map some)) := by
  intro n
  induction n with
  | zero =>
    intro i vars h1 h2 h3 _
    have e : i = p1.length := by omega
    subst e
    rw [tuplesLoop_write p1 p2 _ 0 _ vars (le_refl _) h2 h3]
    simp
  | succ n ih =>
    intro i vars h1 h2 h3 hag
    rcases Nat.lt_or_ge i p1.length with hlt | hge
    · have hi2 : i < p2.length := by omega
      have hs := hag i (le_refl _) hlt
      rw [typeStringAt_lt p1 i hlt, typeStringAt_lt p2 i hi2] at hs
      have hs1 : p1[i].typ.string = p2[i].typ.string := by simpa using hs
      rw [tuplesLoop]
      simp only [hlt, if_true, Tuple.At, List.get?_eq_getElem?, List.getElem?_eq_getElem hlt,
        List.getElem?_eq_getElem hi2]
      simp only [hs1, bne_self_eq_false, Bool.false_eq_true, if_false]
      exact ih (i + 1) vars (by omega) (by omega) h3 (fun j hj hj1 => hag j (by omega) hj1)
    · have e : i = p1.length := by omega
      subst e
      rw [tuplesLoop_write p1 p2 _ (n + 1) _ vars (le_refl _) h2 h3]
      simp

/-- When the type strings differ somewhere from `i` on, the loop returns nil. -/
theorem tuplesLoop_mismatch (p1 p2 : Tuple) (hle : p1.length ≤ p2.length) :
    ∀ (n i : Nat) (vars : List (Option Var)), n + i = p2.length →
      (∃ j, i ≤ j ∧ j < p1.length ∧ typeStringAt p1 j ≠ typeStringAt p2 j) →
      tuplesLoop p1 p2 p1.length n i vars = some .nil := by
  intro n
  induction n with
  | zero =>
    intro i vars h2 ⟨j, hj, hj1, _⟩
    omega
  | succ n ih =>
    intro i vars h2 ⟨j, hj, hj1, hne⟩
    have hlt : i < p1.length := by omega
    have hi2 : i < p2.length := by omega
    rw [tuplesLoop]
    simp only [hlt, if_true, Tuple.At, List.get?_eq_getElem?, List.getElem?_eq_getElem hlt,
      List.getElem?_eq_getElem hi2]
    by_cases hs : p1[i].typ.string = p2[i].typ.string
    · simp only [hs, bne_self_eq_false, Bool.false_eq_true, if_false]
      refine ih (i + 1) vars (by omega) ⟨j, ?_, hj1, hne⟩
      rcases Nat.eq_or_lt_of_le hj with e | e
      · subst e
        rw [typeStringAt_lt p1 i hlt, typeStringAt_lt p2 i hi2, hs] at hne
        exact absurd rfl hne
      · exact e
    · have : (p1[i].typ.string != p2[i].typ.string) = true := by simpa using hs
      simp only [this, if_true]

theorem tuplesCompatibleExtra_of_prefix (p1 p2 : Tuple) (h : typePrefix p1 p2) :
    tuplesCompatibleExtra p1 p2 = some (.elems ((p2.drop p1.length).map some)) := by
  obtain ⟨hle, hag⟩ := h
  simp only [Tuple.Len] at hle hag
  have hgt : ¬ p1.length > p2.length := by omega
  simp only [tuplesCompatibleExtra, Tuple.Len, hgt, if_false, makeVars_sub _ _ hle]
  exact tuplesLoop_agree p1 p2 hle p2.length 0 _ (Nat.zero_le _) rfl (by simp)
    (fun j _ hj => hag j hj)

theorem tuplesCompatibleExtra_of_not_prefix (p1 p2 : Tuple) (h : ¬ typePrefix p1 p2) :
    tuplesCompatibleExtra p1 p2 = some .nil := by
  by_cases hgt : p1.length > p2.length
  · simp [tuplesCompatibleExtra, Tuple.Len, hgt]
  · have hle : p1.length ≤ p2.length := by omega
    simp only [tuplesCompatibleExtra, Tuple.Len, hgt, if_false, makeVars_sub _ _ hle]
    apply tuplesLoop_mismatch p1 p2 hle p2.length 0 _ rfl
    by_contra hcon
    apply h
    refine ⟨hle, fun i hi => ?_⟩
    by_contra hne
    exact hcon ⟨i, Nat.zero_le _, hi, hne⟩


/-! ## Closed forms -/

theorem tuplesCompatibleExtra_eq (p1 p2 : Tuple) :
    tuplesCompatibleExtra p1 p2 =
      some (if typePrefix p1 p2 then .elems ((p2.drop p1.length).map some) else .nil) := by
  by_cases h : typePrefix p1 p2
  · simp only [h, if_true]
    exact tuplesCompatibleExtra_of_prefix p1 p2 h
  · simp only [h, if_false]
    exact tuplesCompatibleExtra_of_not_prefix p1 p2 h

theorem sigParamsCompatible_eq (s1 s2 : Signature) :
    sigParamsCompatible s1 s2 =
      some (decide (typePrefix s1.params s2.params) &&
        (decide (s2.params.length = s1.params.length) ||
          (decide (s2.params.length = s1.params.length + 1) &&
            (!s1.variadic && s2.variadic)))) := by
  rw [sigParamsCompatible, tuplesCompatibleExtra_eq]
  by_cases h : typePrefix s1.params s2.params
  · have hle : s1.params.length ≤ s2.params.length := h.1
    simp only [h, if_true, VarSlice.isNil, VarSlice.len, List.length_map, List.length_drop,
      decide_True, Bool.true_and, Bool.false_eq_true, if_false]
    by_cases h0 : s2.params.length = s1.params.length
    · have : s2.params.length - s1.params.length = 0 := by omega
      simp [h0]
    · by_cases h1 : s2.params.length = s1.params.length + 1
      · have : s2.params.length - s1.params.length = 1 := by omega
        cases hv1 : s1.variadic <;> cases hv2 : s2.variadic <;> simp [h1, this]
      · have a : ¬ (s2.params.length - s1.params.length = 0) := by omega
        have b : ¬ (s2.params.length - s1.params.length = 1) := by omega
        simp [h0, h1, a, b]
  · simp [h, VarSlice.isNil]

theorem sigResultsCompatible_eq (s1 s2 : Signature) :
    sigResultsCompatible s1 s2 =
      some (decide (s1.results.length = 0) ||
        (decide (typePrefix s1.results s2.results) &&
          decide (s2.results.length = s1.results.length))) := by
  rw [sigResultsCompatible]
  by_cases hz : s1.results.length = 0
  · simp [Tuple.Len, hz]
  · rw [tuplesCompatibleExtra_eq]
    by_cases h : typePrefix s1.results s2.results
    · have hle : s1.results.length ≤ s2.results.length := h.1
      by_cases h0 : s2.results.length = s1.results.length
      · simp [Tuple.Len, hz, h, VarSlice.isNil, VarSlice.len, h0]
      · have a : ¬ (s2.results.length - s1.results.length = 0) := by omega
        simp [Tuple.Len, hz, h, VarSlice.isNil, VarSlice.len, h0, a]
    · simp [Tuple.Len, hz, h, VarSlice.isNil]

theorem isCompatible_eq_ref (fc : FuncChange) :
    fc.isCompatible = isCompatibleRef fc.Before fc.After := by
  rcases fc with ⟨_ | b, _ | a⟩ <;> simp only [FuncChange.isCompatible, isCompatibleRef]
  rcases hb : b.Types.type with _ | sb <;> rcases ha : a.Types.type with _ | sa <;> simp only []
  rw [sigParamsCompatible_eq, sigResultsCompatible_eq]
  generalize (decide (typePrefix sb.params sa.params) &&
        (decide (sa.params.length = sb.params.length) ||
          (decide (sa.params.length = sb.params.length + 1) &&
            (!sb.variadic && sa.variadic)))) = x
  generalize (decide (sb.results.length = 0) ||
        (decide (typePrefix sb.results sa.results) &&
          decide (sa.results.length = sb.results.length))) = y
  cases x <;> cases y <;> rfl

theorem isCompatible_total (fc : FuncChange) : ∃ ok, fc.isCompatible = some ok := by
  rw [isCompatible_eq_ref]
  rcases fc with ⟨_ | b, _ | a⟩ <;> simp only [isCompatibleRef] <;> try exact ⟨_, rfl⟩
  rcases hb : b.Types.type with _ | sb <;> rcases ha : a.Types.type with _ | sa <;>
    simp only [] <;> try exact ⟨_, rfl⟩
  rw [sigParamsCompatible_eq, sigResultsCompatible_eq]
  exact ⟨_, rfl⟩

/-! ## Classification rules -/

/-- C1, presence rules: for every function `F`, a change with `Before` absent
and `After = F` is classified `ChangeAdded`, and a change with `Before = F`
and `After` absent is classified `ChangeRemoved`, whatever the signature, type
or rendered text of `F` is. -/
theorem Kind_presence_rules (F : Func) :
    FuncChange.Kind ⟨none, some F⟩ = some ChangeAdded ∧
      FuncChange.Kind ⟨some F, none⟩ = some ChangeRemoved :=
  ⟨rfl, rfl⟩

/-- C2, identity short-circuit: when both sides are present and their object
strings are equal, `Kind` returns `ChangeUnchanged` without consulting
`isCompatible`; in particular this holds of every change from `F` to `F`. -/
theorem Kind_identity_short_circuit (before after : Func)
    (hs : before.Types.objectString = after.Types.objectString) :
    FuncChange.Kind ⟨some before, some after⟩ = some ChangeUnchanged ∧
      FuncChange.Kind ⟨some before, some before⟩ = some ChangeUnchanged := by
  simp [FuncChange.Kind, hs]

/-- Witness of C2: a change between two untyped declarations with the same
object string is `ChangeUnchanged` although `isCompatible` is false on it, and
a change from `Get` to itself is `ChangeUnchanged` where `isCompatible` is
true. -/
theorem Kind_identity_short_circuit_witness :
    (FuncChange.isCompatible ⟨some untypedFunc, some untypedFunc⟩ = some false ∧
        FuncChange.Kind ⟨some untypedFunc, some untypedFunc⟩ = some ChangeUnchanged) ∧
      (FuncChange.isCompatible ⟨some getBefore, some getBefore⟩ = some true ∧
        FuncChange.Kind ⟨some getBefore, some getBefore⟩ = some ChangeUnchanged) :=
  ⟨⟨by decide, (Kind_identity_short_circuit untypedFunc untypedFunc rfl).1⟩,
    ⟨by decide, (Kind_identity_short_circuit getBefore getBefore rfl).1⟩⟩

/-- C3, compatible/breaking split: with both sides present and different object
strings, `isCompatible` returns a boolean and `Kind` is `ChangeCompatible` when
it is true and `ChangeBreaking` when it is false; `Kind` is `ChangeCompatible`
only when both sides are present, the strings differ and `isCompatible` holds;
and `Kind` always returns the classification of the first matching row of the
decision table. -/
theorem Kind_compatible_breaking_split (fc : FuncChange) :
    (∀ before after, fc.Before = some before → fc.After = some after →
        before.Types.objectString ≠ after.Types.objectString →
        ∃ ok, fc.isCompatible = some ok ∧
          fc.Kind = some (if ok then ChangeCompatible else ChangeBreaking)) ∧
      (fc.Kind = some ChangeCompatible →
        ∃ before after, fc.Before = some before ∧ fc.After = some after ∧
          before.Types.objectString ≠ after.Types.objectString ∧
          fc.isCompatible = some true) ∧
      fc.Kind = firstMatch (kindTable fc) := by
  obtain ⟨ok, hok⟩ := isCompatible_total fc
  rcases fc with ⟨_ | b, _ | a⟩
  · simp [FuncChange.Kind, firstMatch, kindTable]
  · simp [FuncChange.Kind, firstMatch, kindTable]
  · simp [FuncChange.Kind, firstMatch, kindTable]
  · by_cases hs : b.Types.objectString = a.Types.objectString
    · simp [FuncChange.Kind, firstMatch, kindTable, sameObjectString, hs]
    · cases ok <;>
        simp [FuncChange.Kind, firstMatch, kindTable, sameObjectString, hs, hok]

/-- Witness of C3: the two versions of `Get` differ in their object strings,
`isCompatible` is true on them and the change is `ChangeCompatible`. -/
theorem Kind_compatible_breaking_split_witness :
    FuncChange.isCompatible ⟨some getBefore, some getAfter⟩ = some true ∧
      FuncChange.Kind ⟨some getBefore, some getAfter⟩ = some ChangeCompatible ∧
      FuncChange.Kind ⟨some getBefore, some getAfter⟩
        = firstMatch (kindTable ⟨some getBefore, some getAfter⟩) :=
  ⟨by decide, by decide, (Kind_compatible_breaking_split ⟨some getBefore, some getAfter⟩).2.2⟩

/-- C4, prefix law of the tuple comparator: `tuplesCompatibleExtra p1 p2`
returns a slice; the slice is non-nil (a match) exactly when `p1` is no longer
than `p2` and the type strings agree at every position of `p1`; on a match the
slice holds the variables of `p2` from position `p1.Len` on, in order, so its
length is `p2.Len - p1.Len`, and it is the empty non-nil slice when the lengths
are equal; the slice is nil when `p1` is longer than `p2` or when the type
strings differ at a shared position. -/
theorem tuplesCompatibleExtra_prefix_law (p1 p2 : Tuple) :
    ∃ extra, tuplesCompatibleExtra p1 p2 = some extra ∧
      (extra.isNil = false ↔
        (p1.Len ≤ p2.Len ∧ ∀ i, i < p1.Len → typeStringAt p1 i = typeStringAt p2 i)) ∧
      (extra.isNil = false →
        extra = .elems ((p2.drop p1.Len).map some) ∧ extra.len = p2.Len - p1.Len) ∧
      (extra.isNil = false → p1.Len = p2.Len → extra = .elems []) ∧
      (p1.Len > p2.Len → extra = .nil) ∧
      ((∃ i, i < p1.Len ∧ i < p2.Len ∧ typeStringAt p1 i ≠ typeStringAt p2 i) →
        extra = .nil) := by
  refine ⟨_, tuplesCompatibleExtra_eq p1 p2, ?_⟩
  by_cases h : typePrefix p1 p2
  · have h2 := h
    obtain ⟨hle, hag⟩ := h2
    simp only [h, if_true, VarSlice.isNil, true_iff, true_implies, VarSlice.len, Tuple.Len,
      List.length_map, List.length_drop, and_true, true_and]
    refine ⟨⟨hle, hag⟩, ?_, ?_, ?_⟩
    · intro he
      simp [he]
    · intro hgt
      simp only [Tuple.Len] at hle
      omega
    · rintro ⟨i, hi, _, hne⟩
      exact absurd (hag i hi) hne
  · have h3 : ¬ (p1.Len ≤ p2.Len ∧ ∀ i, i < p1.Len → typeStringAt p1 i = typeStringAt p2 i) := h
    simp only [h, if_false, VarSlice.isNil, h3, iff_false, Bool.true_eq_false, not_false_eq_true,
      false_implies, implies_true, and_self]

/-- Witness of C4: `(int)` against `(int, string)` matches with the extra
`string`, two empty tuples match with the empty non-nil slice, and `(int)`
against `(string)` or against `()` gives nil. -/
theorem tuplesCompatibleExtra_prefix_law_witness :
    tuplesCompatibleExtra sigF.params sigGPlain.params
        = some (.elems [some ⟨"", tString⟩]) ∧
      tuplesCompatibleExtra [] [] = some (.elems []) ∧
      tuplesCompatibleExtra [⟨"", tInt⟩] [⟨"", tString⟩] = some .nil ∧
      tuplesCompatibleExtra [⟨"", tInt⟩] [] = some .nil ∧
      ∃ extra, tuplesCompatibleExtra sigF.params sigGPlain.params = some extra ∧
        (extra.isNil = false → extra = .elems ((sigGPlain.params.drop sigF.params.Len).map some) ∧
          extra.len = sigGPlain.params.Len - sigF.params.Len) := by
  refine ⟨by decide, by decide, by decide, by decide, ?_⟩
  obtain ⟨extra, h1, _, h3, _⟩ := tuplesCompatibleExtra_prefix_law sigF.params sigGPlain.params
  exact ⟨extra, h1, h3⟩


/-! ## Parameter and result rules -/

/-- C5, one extra parameter: when the parameter type strings of `s1` are a
prefix of those of `s2` and `s2` has exactly one more parameter,
`sigParamsCompatible s1 s2` returns the boolean "`s1` is not variadic and `s2`
is variadic"; so it is true if and only if `s1.Variadic()` is false and
`s2.Variadic()` is true. -/
theorem sigParamsCompatible_one_extra (s1 s2 : Signature)
    (hlen : s2.params.Len = s1.params.Len + 1)
    (hpre : ∀ i, i < s1.params.Len → typeStringAt s1.params i = typeStringAt s2.params i) :
    sigParamsCompatible s1 s2 = some (!s1.variadic && s2.variadic) ∧
      (sigParamsCompatible s1 s2 = some true ↔ (s1.variadic = false ∧ s2.variadic = true)) := by
  have hp : typePrefix s1.params s2.params := ⟨by omega, hpre⟩
  simp only [Tuple.Len] at hlen
  have h0 : ¬ (s2.params.length = s1.params.length) := by omega
  rw [sigParamsCompatible_eq]
  cases s1.variadic <;> cases s2.variadic <;> simp [hp, hlen]

/-- Witness of C5: `f(int)` against `g(int, ...string)` is compatible, and
`f(int)` against `g(int, string)` is not. -/
theorem sigParamsCompatible_one_extra_witness :
    (sigGVariadic.params.Len = sigF.params.Len + 1 ∧
        (∀ i, i < sigF.params.Len →
          typeStringAt sigF.params i = typeStringAt sigGVariadic.params i) ∧
        sigParamsCompatible sigF sigGVariadic = some true) ∧
      (sigGPlain.params.Len = sigF.params.Len + 1 ∧
        (∀ i, i < sigF.params.Len →
          typeStringAt sigF.params i = typeStringAt sigGPlain.params i) ∧
        sigParamsCompatible sigF sigGPlain = some false) :=
  ⟨⟨by decide, by decide,
      (sigParamsCompatible_one_extra sigF sigGVariadic (by decide) (by decide)).1⟩,
    ⟨by decide, by decide,
      (sigParamsCompatible_one_extra sigF sigGPlain (by decide) (by decide)).1⟩⟩

/-- C6, two or more extra parameters: when `s2` has at least two more
parameters than `s1`, `sigParamsCompatible s1 s2` is false, whatever the two
variadic flags and the parameter types are. -/
theorem sigParamsCompatible_two_extra (s1 s2 : Signature)
    (h : s1.params.Len + 2 ≤ s2.params.Len) :
    sigParamsCompatible s1 s2 = some false := by
  simp only [Tuple.Len] at h
  have h0 : ¬ (s2.params.length = s1.params.length) := by omega
  have h1 : ¬ (s2.params.length = s1.params.length + 1) := by omega
  rw [sigParamsCompatible_eq]
  simp [h0, h1]

/-- Witness of C6: `f(int)` against the variadic `g(int, string, ...string)`,
whose parameters extend those of `f`, is not compatible. -/
theorem sigParamsCompatible_two_extra_witness :
    sigF.params.Len + 2 ≤ sigGTwoMore.params.Len ∧ sigGTwoMore.variadic = true ∧
      typePrefix sigF.params sigGTwoMore.params ∧
      sigParamsCompatible sigF sigGTwoMore = some false :=
  ⟨by decide, rfl, by decide, sigParamsCompatible_two_extra sigF sigGTwoMore (by decide)⟩

/-- C7, result addition from zero: when `s1` declares no result,
`sigResultsCompatible s1 s2` is true for every `s2`. -/
theorem sigResultsCompatible_from_zero (s1 s2 : Signature) (h : s1.results.Len = 0) :
    sigResultsCompatible s1 s2 = some true := by
  simp [sigResultsCompatible, h]

/-- Witness of C7: `f(int)` against `g(int) string`. -/
theorem sigResultsCompatible_from_zero_witness :
    sigNoResult.results.Len = 0 ∧ sigResultsCompatible sigNoResult sigStringResult = some true :=
  ⟨by decide, sigResultsCompatible_from_zero sigNoResult sigStringResult (by decide)⟩

/-- C8, result rule for a non-empty base: when `s1` declares at least one
result, `sigResultsCompatible s1 s2` is true if and only if `s2` has as many
results as `s1` and the type strings agree at every position, and it is false
otherwise. -/
theorem sigResultsCompatible_nonempty (s1 s2 : Signature) (h : 0 < s1.results.Len) :
    (sigResultsCompatible s1 s2 = some true ↔
        (s2.results.Len = s1.results.Len ∧
          ∀ i, i < s1.results.Len → typeStringAt s1.results i = typeStringAt s2.results i)) ∧
      (sigResultsCompatible s1 s2 = some false ↔
        ¬ (s2.results.Len = s1.results.Len ∧
          ∀ i, i < s1.results.Len → typeStringAt s1.results i = typeStringAt s2.results i)) := by
  simp only [Tuple.Len] at h
  have hz : ¬ (s1.results.length = 0) := by omega
  rw [sigResultsCompatible_eq]
  simp only [hz, decide_False, Bool.false_or, Option.some.injEq, Bool.and_eq_true,
    decide_eq_true_eq, Bool.and_eq_false_imp, typePrefix, Tuple.Len]
  constructor
  · constructor
    · rintro ⟨⟨_, hag⟩, hl⟩
      exact ⟨hl, hag⟩
    · rintro ⟨hl, hag⟩
      exact ⟨⟨by omega, hag⟩, hl⟩
  · constructor
    · rintro hf ⟨hl, hag⟩
      have := hf ⟨by omega, hag⟩
      simp [hl] at this
    · intro hn hp
      simp only [decide_eq_false_iff_not]
      intro hl
      exact hn ⟨hl, hp.2⟩

/-- Witness of C8: from `f(int) int`, adding a trailing result, changing the
result type, and (from `g(int) (int, error)`) removing a result are all
incompatible, and keeping the result is compatible. -/
theorem sigResultsCompatible_nonempty_witness :
    0 < sigIntResult.results.Len ∧ 0 < sigIntErrorResult.results.Len ∧
      sigResultsCompatible sigIntResult sigIntErrorResult = some false ∧
      sigResultsCompatible sigIntResult sigStringResult = some false ∧
      sigResultsCompatible sigIntErrorResult sigIntResult = some false ∧
      sigResultsCompatible sigIntResult sigIntResult = some true :=
  ⟨by decide, by decide,
    (sigResultsCompatible_nonempty sigIntResult sigIntErrorResult (by decide)).2.mpr (by decide),
    (sigResultsCompatible_nonempty sigIntResult sigStringResult (by decide)).2.mpr (by decide),
    (sigResultsCompatible_nonempty sigIntErrorResult sigIntResult (by decide)).2.mpr (by decide),
    (sigResultsCompatible_nonempty sigIntResult sigIntResult (by decide)).1.mpr (by decide)⟩

/-! ## `isCompatible` and end-to-end classification -/

/-- C9, `isCompatible` against its reference definition: `isCompatible` is
false when either side is absent and when either side's type is absent;
otherwise both signature rules return a boolean and `isCompatible` is their
conjunction. -/
theorem isCompatible_reference (fc : FuncChange) :
    fc.isCompatible = isCompatibleRef fc.Before fc.After ∧
      ((fc.Before = none ∨ fc.After = none) → fc.isCompatible = some false) ∧
      (∀ before after, fc.Before = some before → fc.After = some after →
        (before.Types.type = none ∨ after.Types.type = none) →
        fc.isCompatible = some false) ∧
      (∀ before after sigBefore sigAfter, fc.Before = some before → fc.After = some after →
        before.Types.type = some sigBefore → after.Types.type = some sigAfter →
        ∃ paramsOK resultsOK, sigParamsCompatible sigBefore sigAfter = some paramsOK ∧
          sigResultsCompatible sigBefore sigAfter = some resultsOK ∧
          fc.isCompatible = some (paramsOK && resultsOK)) := by
  refine ⟨isCompatible_eq_ref fc, ?_, ?_, ?_⟩
  · rintro (h | h)
    · rcases fc with ⟨b, a⟩
      simp only at h
      subst h
      simp [FuncChange.isCompatible]
    · rcases fc with ⟨_ | b, a⟩
      · simp [FuncChange.isCompatible]
      · simp only at h
        subst h
        simp [FuncChange.isCompatible]
  · rintro before after hb ha (h | h)
    · rcases fc with ⟨b, a⟩
      simp only at hb ha
      subst hb ha
      simp [FuncChange.isCompatible, h]
    · rcases fc with ⟨b, a⟩
      simp only at hb ha
      subst hb ha
      rw [isCompatible_eq_ref]
      cases hbt : before.Types.type <;> simp [isCompatibleRef, h, hbt]
  · intro before after sigBefore sigAfter hb ha hbt hat
    rcases fc with ⟨b, a⟩
    simp only at hb ha
    subst hb ha
    refine ⟨_, _, sigParamsCompatible_eq _ _, sigResultsCompatible_eq _ _, ?_⟩
    rw [isCompatible_eq_ref]
    simp only [isCompatibleRef, hbt, hat, sigParamsCompatible_eq, sigResultsCompatible_eq]

/-- Witness of C9: on the two versions of `Get` both rules return true and
`isCompatible` is true; on an untyped side it is false. -/
theorem isCompatible_reference_witness :
    sigParamsCompatible ⟨[⟨"key", tString⟩], [⟨"", tString⟩, ⟨"", tBool⟩], false⟩
        ⟨[⟨"key", tString⟩, ⟨"opts", tOptions⟩], [⟨"", tString⟩, ⟨"", tBool⟩], true⟩
        = some true ∧
      FuncChange.isCompatible ⟨some getBefore, some getAfter⟩ = some true ∧
      FuncChange.isCompatible ⟨some getBefore, some untypedFunc⟩ = some false ∧
      FuncChange.isCompatible ⟨some getBefore, none⟩ = some false :=
  ⟨by decide, by decide,
    (isCompatible_reference ⟨some getBefore, some untypedFunc⟩).2.2.1 getBefore untypedFunc
      rfl rfl (Or.inr rfl),
    (isCompatible_reference ⟨some getBefore, none⟩).2.1 (Or.inr rfl)⟩

/-- C10, end-to-end variadic extension: when both sides are present and typed,
`Before` is not variadic, `After` is variadic and its parameters are those of
`Before` (by type string) followed by exactly one more, the results have the
same type strings, and the object strings differ, `Kind` returns
`ChangeCompatible`. -/
theorem Kind_variadic_extension (before after : Func) (sigBefore sigAfter : Signature)
    (hb : before.Types.type = some sigBefore) (ha : after.Types.type = some sigAfter)
    (hv1 : sigBefore.variadic = false) (hv2 : sigAfter.variadic = true)
    (hlen : sigAfter.params.Len = sigBefore.params.Len + 1)
    (hpar : ∀ i, i < sigBefore.params.Len →
      typeStringAt sigBefore.params i = typeStringAt sigAfter.params i)
    (hrlen : sigAfter.results.Len = sigBefore.results.Len)
    (hres : ∀ i, i < sigBefore.results.Len →
      typeStringAt sigBefore.results i = typeStringAt sigAfter.results i)
    (hne : before.Types.objectString ≠ after.Types.objectString) :
    FuncChange.Kind ⟨some before, some after⟩ = some ChangeCompatible := by
  have hp : typePrefix sigBefore.params sigAfter.params := ⟨by omega, hpar⟩
  have hr : typePrefix sigBefore.results sigAfter.results := ⟨by omega, hres⟩
  simp only [Tuple.Len] at hlen hrlen
  have hc : FuncChange.isCompatible ⟨some before, some after⟩ = some true := by
    rw [isCompatible_eq_ref]
    simp [isCompatibleRef, hb, ha, sigParamsCompatible_eq, sigResultsCompatible_eq, hp, hr,
      hlen, hrlen, hv1, hv2]
  simp [FuncChange.Kind, hne, hc]

/-- Witness of C10: `func Get(key string) (string, bool)` against
`func Get(key string, opts ...Option) (string, bool)` is `ChangeCompatible`. -/
theorem Kind_variadic_extension_witness :
    getBefore.Types.objectString ≠ getAfter.Types.objectString ∧
      FuncChange.Kind ⟨some getBefore, some getAfter⟩ = some ChangeCompatible :=
  ⟨by decide,
    Kind_variadic_extension getBefore getAfter
      ⟨[⟨"key", tString⟩], [⟨"", tString⟩, ⟨"", tBool⟩], false⟩
      ⟨[⟨"key", tString⟩, ⟨"opts", tOptions⟩], [⟨"", tString⟩, ⟨"", tBool⟩], true⟩
      rfl rfl rfl rfl (by decide) (by decide) (by decide) (by decide) (by decide)⟩

/-! ## Further classification properties -/

/-- C11, end-to-end result extension: when both sides are present and typed,
`Before` declares at least one result, the parameters of `After` agree with
those of `Before` by type string, the results of `After` are those of `Before`
followed by at least one more, and the object strings differ, `Kind` returns
`ChangeBreaking`. -/
theorem Kind_result_extension_breaking (before after : Func) (sigBefore sigAfter : Signature)
    (hb : before.Types.type = some sigBefore) (ha : after.Types.type = some sigAfter)
    (hpos : 0 < sigBefore.results.Len)
    (_hplen : sigAfter.params.Len = sigBefore.params.Len)
    (_hpar : ∀ i, i < sigBefore.params.Len →
      typeStringAt sigBefore.params i = typeStringAt sigAfter.params i)
    (hrlen : sigBefore.results.Len < sigAfter.results.Len)
    (_hres : ∀ i, i < sigBefore.results.Len →
      typeStringAt sigBefore.results i = typeStringAt sigAfter.results i)
    (hne : before.Types.objectString ≠ after.Types.objectString) :
    FuncChange.Kind ⟨some before, some after⟩ = some ChangeBreaking := by
  simp only [Tuple.Len] at hpos hrlen
  have h0 : ¬ (sigBefore.results.length = 0) := by omega
  have h1 : ¬ (sigAfter.results.length = sigBefore.results.length) := by omega
  have hc : FuncChange.isCompatible ⟨some before, some after⟩ = some false := by
    rw [isCompatible_eq_ref]
    simp [isCompatibleRef, hb, ha, sigParamsCompatible_eq, sigResultsCompatible_eq, h0, h1]
  simp [FuncChange.Kind, hne, hc]

/-- Witness of C11: `func Get(key string) string` against
`func Get(key string) (string, error)` is `ChangeBreaking`. -/
theorem Kind_result_extension_breaking_witness :
    getString.Types.objectString ≠ getStringError.Types.objectString ∧
      FuncChange.Kind ⟨some getString, some getStringError⟩ = some ChangeBreaking :=
  ⟨by decide,
    Kind_result_extension_breaking getString getStringError
      ⟨[⟨"key", tString⟩], [⟨"", tString⟩], false⟩
      ⟨[⟨"key", tString⟩], [⟨"", tString⟩, ⟨"", tError⟩], false⟩
      rfl rfl (by decide) (by decide) (by decide) (by decide) (by decide) (by decide)⟩

/-- C16, both sides absent: `Kind` of the change with `Before` and `After` both
nil does not panic and returns `ChangeUnchanged`. -/
theorem Kind_both_absent :
    FuncChange.Kind ⟨none, none⟩ = some ChangeUnchanged :=
  rfl

/-- C15, zero extra parameters: when the parameter lists have the same length
and the same type string at every position, `sigParamsCompatible s1 s2` is
true, and it stays true when the two variadic flags are replaced by any of
their four combinations. -/
theorem sigParamsCompatible_zero_extra (s1 s2 : Signature)
    (hlen : s1.params.Len = s2.params.Len)
    (hpar : ∀ i, i < s1.params.Len → typeStringAt s1.params i = typeStringAt s2.params i) :
    sigParamsCompatible s1 s2 = some true ∧
      ∀ v1 v2 : Bool,
        sigParamsCompatible ⟨s1.params, s1.results, v1⟩ ⟨s2.params, s2.results, v2⟩
          = some true := by
  have hp : typePrefix s1.params s2.params := ⟨by omega, hpar⟩
  simp only [Tuple.Len] at hlen
  refine ⟨?_, fun v1 v2 => ?_⟩
  · rw [sigParamsCompatible_eq]
    simp [hp, hlen]
  · rw [sigParamsCompatible_eq]
    simp [hp, hlen]

/-- Witness of C15: the variadic `f(xs ...string)` against the non-variadic
`f(xs []string)`, whose single parameter has the same type string, is
compatible. -/
theorem sigParamsCompatible_zero_extra_witness :
    sigVariadicStrings.variadic = true ∧ sigSliceStrings.variadic = false ∧
      sigParamsCompatible sigVariadicStrings sigSliceStrings = some true :=
  ⟨rfl, rfl,
    (sigParamsCompatible_zero_extra sigVariadicStrings sigSliceStrings (by decide)
      (by decide)).1⟩

/-- C18, type-preserving changes: when both sides are present and typed and
their parameter lists and result lists agree in length and in type string at
every position, `isCompatible` is true and `Kind` is `ChangeUnchanged` or
`ChangeCompatible`, never `ChangeBreaking`, whatever the object strings and
the variadic flags are; in particular `isCompatible` is true of the change
from a typed function to itself. -/
theorem Kind_type_preserving (before after : Func) (sigBefore sigAfter : Signature)
    (hb : before.Types.type = some sigBefore) (ha : after.Types.type = some sigAfter)
    (hplen : sigBefore.params.Len = sigAfter.params.Len)
    (hpar : ∀ i, i < sigBefore.params.Len →
      typeStringAt sigBefore.params i = typeStringAt sigAfter.params i)
    (hrlen : sigBefore.results.Len = sigAfter.results.Len)
    (hres : ∀ i, i < sigBefore.results.Len →
      typeStringAt sigBefore.results i = typeStringAt sigAfter.results i) :
    FuncChange.isCompatible ⟨some before, some after⟩ = some true ∧
      (FuncChange.Kind ⟨some before, some after⟩ = some ChangeUnchanged ∨
        FuncChange.Kind ⟨some before, some after⟩ = some ChangeCompatible) ∧
      FuncChange.Kind ⟨some before, some after⟩ ≠ some ChangeBreaking ∧
      FuncChange.isCompatible ⟨some before, some before⟩ = some true := by
  have hp : typePrefix sigBefore.params sigAfter.params := ⟨by omega, hpar⟩
  have hr : typePrefix sigBefore.results sigAfter.results := ⟨by omega, hres⟩
  have hp0 : typePrefix sigBefore.params sigBefore.params := ⟨le_refl _, fun _ _ => rfl⟩
  have hr0 : typePrefix sigBefore.results sigBefore.results := ⟨le_refl _, fun _ _ => rfl⟩
  simp only [Tuple.Len] at hplen hrlen
  have hc : FuncChange.isCompatible ⟨some before, some after⟩ = some true := by
    rw [isCompatible_eq_ref]
    simp [isCompatibleRef, hb, ha, sigParamsCompatible_eq, sigResultsCompatible_eq, hp, hr,
      hplen, hrlen]
  have hc0 : FuncChange.isCompatible ⟨some before, some before⟩ = some true := by
    rw [isCompatible_eq_ref]
    simp [isCompatibleRef, hb, sigParamsCompatible_eq, sigResultsCompatible_eq, hp0, hr0]
  refine ⟨hc, ?_, ?_, hc0⟩
  · by_cases hs : before.Types.objectString = after.Types.objectString
    · left
      simp [FuncChange.Kind, hs]
    · right
      simp [FuncChange.Kind, hs, hc]
  · by_cases hs : before.Types.objectString = after.Types.objectString
    · simp [FuncChange.Kind, hs]
    · simp [FuncChange.Kind, hs, hc]

/-- Witness of C18: the change from `func Get(key string) string` to itself. -/
theorem Kind_type_preserving_witness :
    FuncChange.isCompatible ⟨some getString, some getString⟩ = some true ∧
      FuncChange.Kind ⟨some getString, some getString⟩ ≠ some ChangeBreaking :=
  ⟨(Kind_type_preserving getString getString
      ⟨[⟨"key", tString⟩], [⟨"", tString⟩], false⟩ ⟨[⟨"key", tString⟩], [⟨"", tString⟩], false⟩
      rfl rfl (by decide) (by decide) (by decide) (by decide)).1,
    (Kind_type_preserving getString getString
      ⟨[⟨"key", tString⟩], [⟨"", tString⟩], false⟩ ⟨[⟨"key", tString⟩], [⟨"", tString⟩], false⟩
      rfl rfl (by decide) (by decide) (by decide) (by decide)).2.2.1⟩

/-- C19, removing or retyping a parameter: when both sides are present and
typed and `After` has fewer parameters than `Before`, or the type strings
differ at a position shared by both parameter lists, `isCompatible` is false,
`Kind` is `ChangeBreaking` whenever the object strings differ, and `Kind` is
never `ChangeCompatible`. -/
theorem Kind_param_removed_or_retyped (before after : Func) (sigBefore sigAfter : Signature)
    (hb : before.Types.type = some sigBefore) (ha : after.Types.type = some sigAfter)
    (h : sigAfter.params.Len < sigBefore.params.Len ∨
      ∃ i, i < sigBefore.params.Len ∧ i < sigAfter.params.Len ∧
        typeStringAt sigBefore.params i ≠ typeStringAt sigAfter.params i) :
    FuncChange.isCompatible ⟨some before, some after⟩ = some false ∧
      (before.Types.objectString ≠ after.Types.objectString →
        FuncChange.Kind ⟨some before, some after⟩ = some ChangeBreaking) ∧
      FuncChange.Kind ⟨some before, some after⟩ ≠ some ChangeCompatible := by
  have hp : ¬ typePrefix sigBefore.params sigAfter.params := by
    rintro ⟨hle, hag⟩
    rcases h with h | ⟨i, hi, _, hne⟩
    · omega
    · exact hne (hag i hi)
  have hc : FuncChange.isCompatible ⟨some before, some after⟩ = some false := by
    rw [isCompatible_eq_ref]
    simp [isCompatibleRef, hb, ha, sigParamsCompatible_eq, sigResultsCompatible_eq, hp]
  refine ⟨hc, ?_, ?_⟩
  · intro hs
    simp [FuncChange.Kind, hs, hc]
  · by_cases hs : before.Types.objectString = after.Types.objectString
    · simp [FuncChange.Kind, hs]
    · simp [FuncChange.Kind, hs, hc]

/-- Witness of C19: removing the parameter of `func Get(key string) string`,
and retyping it to `int`, are both `ChangeBreaking`. -/
theorem Kind_param_removed_or_retyped_witness :
    FuncChange.Kind ⟨some getString, some getNoKey⟩ = some ChangeBreaking ∧
      FuncChange.Kind ⟨some getString, some getIntKey⟩ = some ChangeBreaking :=
  ⟨(Kind_param_removed_or_retyped getString getNoKey
      ⟨[⟨"key", tString⟩], [⟨"", tString⟩], false⟩ ⟨[], [⟨"", tString⟩], false⟩
      rfl rfl (Or.inl (by decide))).2.1 (by decide),
    (Kind_param_removed_or_retyped getString getIntKey
      ⟨[⟨"key", tString⟩], [⟨"", tString⟩], false⟩ ⟨[⟨"key", tInt⟩], [⟨"", tString⟩], false⟩
      rfl rfl (Or.inr ⟨0, by decide, by decide, by decide⟩)).2.1 (by decide)⟩

/-! ## Unresolved types -/

/-- C13 as stated fails: the change between two untyped declarations with the
same object string has an absent type on both sides, yet `Kind` returns
`ChangeUnchanged`, not `ChangeBreaking`. -/
theorem Kind_untyped_counterexample :
    untypedFunc.Types.type = none ∧
      FuncChange.Kind ⟨some untypedFunc, some untypedFunc⟩ = some ChangeUnchanged ∧
      ¬ (∀ before after : Func, (before.Types.type = none ∨ after.Types.type = none) →
        FuncChange.Kind ⟨some before, some after⟩ = some ChangeBreaking) := by
  refine ⟨rfl, by decide, fun h => ?_⟩
  have h1 := h untypedFunc untypedFunc (Or.inl rfl)
  revert h1
  decide

/-- C13, amended: when both sides are present and at least one side's type is
absent, classification does not panic, `isCompatible` is false, and `Kind`
returns `ChangeBreaking` when the two object strings differ and
`ChangeUnchanged` when they are equal. -/
theorem Kind_untyped (before after : Func)
    (h : before.Types.type = none ∨ after.Types.type = none) :
    FuncChange.isCompatible ⟨some before, some after⟩ = some false ∧
      (before.Types.objectString ≠ after.Types.objectString →
        FuncChange.Kind ⟨some before, some after⟩ = some ChangeBreaking) ∧
      (before.Types.objectString = after.Types.objectString →
        FuncChange.Kind ⟨some before, some after⟩ = some ChangeUnchanged) := by
  have hc : FuncChange.isCompatible ⟨some before, some after⟩ = some false := by
    rw [isCompatible_eq_ref]
    rcases h with h | h
    · simp [isCompatibleRef, h]
    · cases hbt : before.Types.type <;> simp [isCompatibleRef, h]
  refine ⟨hc, ?_, ?_⟩
  · intro hs
    simp [FuncChange.Kind, hs, hc]
  · intro hs
    simp [FuncChange.Kind, hs]

/-- Witness of C13, amended: `func Get(key string) string` against an untyped
`Get` is `ChangeBreaking`. -/
theorem Kind_untyped_witness :
    FuncChange.isCompatible ⟨some getString, some untypedFunc⟩ = some false ∧
      FuncChange.Kind ⟨some getString, some untypedFunc⟩ = some ChangeBreaking :=
  ⟨(Kind_untyped getString untypedFunc (Or.inr rfl)).1,
    (Kind_untyped getString untypedFunc (Or.inr rfl)).2.1 (by decide)⟩

/-! ## Names -/

/-- The modelled rendering gives the object strings written out in the sample
declarations. -/
theorem objectStringOf_samples :
    objectStringOf "kv" "Get" getBefore.Types.type = getBefore.Types.objectString ∧
      objectStringOf "kv" "Get" getAfter.Types.type = getAfter.Types.objectString ∧
      objectStringOf "kv" "Get" getString.Types.type = getString.Types.objectString ∧
      objectStringOf "kv" "Get" untypedFunc.Types.type = untypedFunc.Types.objectString := by
  decide

theorem typeStringAt_eq_map (p : Tuple) (i : Nat) :
    typeStringAt p i = (p.map (fun v => v.typ.string)).get? i := by
  simp [typeStringAt, Tuple.At]

theorem typePrefix_congr (p1 p2 q1 q2 : Tuple)
    (h1 : sameTypeStrings p1 q1 = true) (h2 : sameTypeStrings p2 q2 = true) :
    typePrefix p1 p2 ↔ typePrefix q1 q2 := by
  simp only [sameTypeStrings, decide_eq_true_eq] at h1 h2
  have l1 : p1.length = q1.length := by simpa using congrArg List.length h1
  have l2 : p2.length = q2.length := by simpa using congrArg List.length h2
  simp only [typePrefix, Tuple.Len, typeStringAt_eq_map, h1, h2, l1, l2]

theorem sameTypeStrings_length (p q : Tuple) (h : sameTypeStrings p q = true) :
    p.length = q.length := by
  simp only [sameTypeStrings, decide_eq_true_eq] at h
  simpa using congrArg List.length h

theorem sigParamsCompatible_congr (s1 s2 t1 t2 : Signature)
    (h1 : s1.sameApartFromNames t1 = true) (h2 : s2.sameApartFromNames t2 = true) :
    sigParamsCompatible s1 s2 = sigParamsCompatible t1 t2 := by
  simp only [Signature.sameApartFromNames, Bool.and_eq_true, decide_eq_true_eq] at h1 h2
  obtain ⟨⟨hp1, _⟩, hv1⟩ := h1
  obtain ⟨⟨hp2, _⟩, hv2⟩ := h2
  rw [sigParamsCompatible_eq, sigParamsCompatible_eq, hv1, hv2,
    sameTypeStrings_length _ _ hp1, sameTypeStrings_length _ _ hp2,
    decide_eq_decide.mpr (typePrefix_congr _ _ _ _ hp1 hp2)]

theorem sigResultsCompatible_congr (s1 s2 t1 t2 : Signature)
    (h1 : s1.sameApartFromNames t1 = true) (h2 : s2.sameApartFromNames t2 = true) :
    sigResultsCompatible s1 s2 = sigResultsCompatible t1 t2 := by
  simp only [Signature.sameApartFromNames, Bool.and_eq_true, decide_eq_true_eq] at h1 h2
  obtain ⟨⟨_, hr1⟩, _⟩ := h1
  obtain ⟨⟨_, hr2⟩, _⟩ := h2
  rw [sigResultsCompatible_eq, sigResultsCompatible_eq,
    sameTypeStrings_length _ _ hr1, sameTypeStrings_length _ _ hr2,
    decide_eq_decide.mpr (typePrefix_congr _ _ _ _ hr1 hr2)]

theorem isCompatibleRef_congr (b1 a1 b2 a2 : Option Func)
    (hb : sideSameApartFromNames b1 b2 = true) (ha : sideSameApartFromNames a1 a2 = true) :
    isCompatibleRef b1 a1 = isCompatibleRef b2 a2 := by
  rcases b1 with _ | b1 <;> rcases b2 with _ | b2 <;>
    simp only [sideSameApartFromNames, Bool.false_eq_true] at hb <;>
    rcases a1 with _ | a1 <;> rcases a2 with _ | a2 <;>
    simp only [sideSameApartFromNames, Bool.false_eq_true] at ha <;>
    simp only [isCompatibleRef]
  rcases hb1 : b1.Types.type with _ | sb1 <;> rcases hb2 : b2.Types.type with _ | sb2 <;>
    simp only [hb1, hb2, Bool.false_eq_true] at hb <;>
    rcases ha1 : a1.Types.type with _ | sa1 <;> rcases ha2 : a2.Types.type with _ | sa2 <;>
    simp only [ha1, ha2, Bool.false_eq_true] at ha <;>
    simp only []
  rw [sigParamsCompatible_congr _ _ _ _ hb ha, sigResultsCompatible_congr _ _ _ _ hb ha]

/-- C12 as stated fails: the change that keeps `func Get(key string) string`
and the change that renames its parameter to `k` agree on presence, package,
function name, type strings and variadic flags, and differ only in the name of
the parameter; the first is `ChangeUnchanged`, the second `ChangeCompatible`. -/
theorem Kind_rename_counterexample :
    getKept.sameApartFromNames getRenamed = true ∧
      getKept.Kind = some ChangeUnchanged ∧
      getRenamed.Kind = some ChangeCompatible ∧
      ¬ (∀ fc1 fc2 : FuncChange, fc1.sameApartFromNames fc2 = true → fc1.Kind = fc2.Kind) := by
  refine ⟨by decide, by decide, by decide, fun h => ?_⟩
  have h1 := h getKept getRenamed (by decide)
  revert h1
  decide

/-- C12, amended: two changes that agree on which sides are present and, side
by side, on the ordered parameter and result type strings and the variadic
flags, differing only in parameter names, result names or documentation, get
the same answer from `isCompatible`; and they get the same `Kind` whenever they
also agree on whether the object strings of `Before` and `After` are equal. -/
theorem Kind_names_only_through_objectString (fc1 fc2 : FuncChange)
    (h : fc1.sameApartFromNames fc2 = true) :
    fc1.isCompatible = fc2.isCompatible ∧
      (sameObjectString fc1 = sameObjectString fc2 → fc1.Kind = fc2.Kind) := by
  simp only [FuncChange.sameApartFromNames, Bool.and_eq_true] at h
  obtain ⟨hb, ha⟩ := h
  have hc : fc1.isCompatible = fc2.isCompatible := by
    rw [isCompatible_eq_ref, isCompatible_eq_ref]
    exact isCompatibleRef_congr _ _ _ _ hb ha
  refine ⟨hc, fun hs => ?_⟩
  rcases fc1 with ⟨b1, a1⟩
  rcases fc2 with ⟨b2, a2⟩
  rcases b1 with _ | b1 <;> rcases b2 with _ | b2 <;>
    simp only [sideSameApartFromNames, Bool.false_eq_true] at hb <;>
    rcases a1 with _ | a1 <;> rcases a2 with _ | a2 <;>
    simp only [sideSameApartFromNames, Bool.false_eq_true] at ha <;>
    simp only [FuncChange.Kind]
  simp only [sameObjectString, decide_eq_decide] at hs
  by_cases h1 : b1.Types.objectString = a1.Types.objectString
  · have h2 := hs.mp h1
    simp [h1, h2]
  · have h2 : ¬ b2.Types.objectString = a2.Types.objectString := fun e => h1 (hs.mpr e)
    simp only [h1, h2, if_false, hc]

/-- Witness of C12, amended: renaming the parameter of `Get` on both sides of
the change from `func Get(key string) string` to
`func Get(key string) (string, error)` leaves the classification the same. -/
theorem Kind_names_only_through_objectString_witness :
    FuncChange.Kind ⟨some (declare "kv" "Get" "" (some sigGetKey)), some getStringError⟩
      = FuncChange.Kind ⟨some (declare "kv" "Get" "" (some sigGetK)), some getStringError⟩ :=
  (Kind_names_only_through_objectString
    ⟨some (declare "kv" "Get" "" (some sigGetKey)), some getStringError⟩
    ⟨some (declare "kv" "Get" "" (some sigGetK)), some getStringError⟩ (by decide)).2 (by decide)

/-! ## Call-site soundness of the parameter rule -/

theorem typePrefix_map_take (p q : Tuple) (h : typePrefix p q) :
    p.map (fun v => v.typ.string) = (q.map (fun v => v.typ.string)).take p.length := by
  obtain ⟨hle, hag⟩ := h
  simp only [Tuple.Len] at hle hag
  apply List.ext_getElem?
  intro n
  by_cases hn : n < p.length
  · have := hag n hn
    simp only [typeStringAt_eq_map, List.get?_eq_getElem?] at this
    rw [this, List.getElem?_take_of_lt hn]
  · have h1 : (List.map (fun v => v.typ.string) p).length ≤ n := by simp; omega
    have h2 : ((List.map (fun v => v.typ.string) q).take p.length).length ≤ n := by
      simp; omega
    rw [List.getElem?_eq_none h1, List.getElem?_eq_none h2]

/-- Where the variadic flags agree, or exactly one parameter is added, a true
answer of `sigParamsCompatible` is sound for call sites: every argument list
valid for `s1` is valid for `s2`. -/
theorem sigParamsCompatible_sound_of_flags (s1 s2 : Signature) (args : List String)
    (h : sigParamsCompatible s1 s2 = some true)
    (hf : s1.variadic = s2.variadic ∨ s2.params.Len = s1.params.Len + 1)
    (hv : validCall s1 args = true) : validCall s2 args = true := by
  rw [sigParamsCompatible_eq] at h
  simp only [Option.some.injEq, Bool.and_eq_true, decide_eq_true_eq, Bool.or_eq_true,
    Bool.not_eq_true'] at h
  obtain ⟨hp, hcase⟩ := h
  have hm := typePrefix_map_take _ _ hp
  simp only [Tuple.Len] at hf
  rcases hcase with hlen | ⟨hlen, hv1, hv2⟩
  · -- no extra parameter
    have hflag : s1.variadic = s2.variadic := by
      rcases hf with hf | hf
      · exact hf
      · omega
    have hmap : s1.params.map (fun v => v.typ.string) = s2.params.map (fun v => v.typ.string) := by
      rw [hm, ← hlen]
      exact List.take_of_length_le (by simp)
    have hlast : s1.params.getLast?.map (fun v => v.typ.string)
        = s2.params.getLast?.map (fun v => v.typ.string) := by
      rw [← List.getLast?_map, ← List.getLast?_map, hmap]
    have hdrop : s1.params.dropLast.map (fun v => v.typ.string)
        = s2.params.dropLast.map (fun v => v.typ.string) := by
      rw [List.map_dropLast, List.map_dropLast, hmap]
    unfold validCall at hv ⊢
    rw [← hflag]
    cases hvar : s1.variadic
    · simp only [hvar, Bool.false_eq_true, if_false] at hv ⊢
      rw [← hmap]
      exact hv
    · simp only [hvar, if_true] at hv ⊢
      rcases h1 : s1.params.getLast? with _ | last1
      · simp [h1] at hv
      · rcases h2 : s2.params.getLast? with _ | last2
        · simp [h1, h2] at hlast
        · simp only [h1, h2, Option.map_some', Option.some.injEq] at hlast
          simp only [h1] at hv
          simp only [hlen, ← hdrop, ← hlast]
          exact hv
  · -- one extra parameter, added as the variadic one
    unfold validCall at hv ⊢
    simp only [hv1, Bool.false_eq_true, if_false, beq_iff_eq] at hv
    simp only [hv2, if_true]
    rcases h2 : s2.params.getLast? with _ | last2
    · have : s2.params = [] := by simpa using h2
      simp [this] at hlen
    · have hlen1 : s2.params.length - 1 = s1.params.length := by omega
      have hd : s2.params.dropLast.map (fun v => v.typ.string)
          = s1.params.map (fun v => v.typ.string) := by
        rw [hm, List.map_dropLast, List.dropLast_eq_take]
        simp [hlen1]
      subst hv
      have htake : (s1.params.map (fun v => v.typ.string)).take s1.params.length
          = s1.params.map (fun v => v.typ.string) := List.take_of_length_le (by simp)
      have hdropA : (s1.params.map (fun v => v.typ.string)).drop s1.params.length = [] :=
        List.drop_of_length_le (by simp)
      simp only [hlen1, hd, htake, hdropA, List.all_nil, Bool.and_true, beq_self_eq_true]

/-- C14 at its failing input: `sigParamsCompatible` answers true for
`f(xs ...string)` against `f(xs []string)` and for the reverse change, but the
call with no argument is valid for the variadic signature only, and the call
with one `[]string` argument is valid for the slice signature only; the change
from the variadic to the slice declaration is classified `ChangeCompatible`. -/
theorem sigParamsCompatible_variadic_flip_unsound :
    (sigParamsCompatible sigVariadicStrings sigSliceStrings = some true ∧
        validCall sigVariadicStrings [] = true ∧ validCall sigSliceStrings [] = false) ∧
      (sigParamsCompatible sigSliceStrings sigVariadicStrings = some true ∧
        validCall sigSliceStrings ["[]string"] = true ∧
        validCall sigVariadicStrings ["[]string"] = false) ∧
      joinVariadicToSlice.Kind = some ChangeCompatible ∧
      ¬ (∀ (s1 s2 : Signature) (args : List String), sigParamsCompatible s1 s2 = some true →
        validCall s1 args = true → validCall s2 args = true) := by
  refine ⟨by decide, by decide, by decide, fun h => ?_⟩
  have h1 := h sigVariadicStrings sigSliceStrings [] (by decide) (by decide)
  revert h1
  decide

/-- The sound cases, on the one-extra example: every call valid for `f(int)`
is valid for `g(int, ...string)`. -/
theorem sigParamsCompatible_sound_of_flags_witness :
    validCall sigF ["int"] = true ∧ validCall sigGVariadic ["int"] = true :=
  ⟨by decide,
    sigParamsCompatible_sound_of_flags sigF sigGVariadic ["int"] (by decide)
      (Or.inr (by decide)) (by decide)⟩

/-! ## Index safety and iteration count -/

theorem tuplesLoopRun_result (p1 p2 : Tuple) (len1 : Nat) :
    ∀ (n i : Nat) (vars : List (Option Var)),
      (tuplesLoopRun p1 p2 len1 n i vars).result = tuplesLoop p1 p2 len1 n i vars := by
  intro n
  induction n with
  | zero => intro i vars; rfl
  | succ n ih =>
    intro i vars
    rw [tuplesLoopRun, tuplesLoop]
    split
    · split
      · rfl
      · split
        · rfl
        · split
          · rfl
          · simp only [Run.after, ih]
    · split
      · rfl
      · split
        · rfl
        · simp only [Run.after, ih]

theorem tuplesCompatibleExtraRun_result (p1 p2 : Tuple) :
    (tuplesCompatibleExtraRun p1 p2).result = tuplesCompatibleExtra p1 p2 := by
  simp only [tuplesCompatibleExtraRun, tuplesCompatibleExtra]
  split
  · rfl
  · split
    · rfl
    · simp only [tuplesLoopRun_result]

theorem tuplesLoopRun_iterations_le (p1 p2 : Tuple) (len1 : Nat) :
    ∀ (n i : Nat) (vars : List (Option Var)),
      (tuplesLoopRun p1 p2 len1 n i vars).iterations ≤ n := by
  intro n
  induction n with
  | zero => intro i vars; simp [tuplesLoopRun]
  | succ n ih =>
    intro i vars
    rw [tuplesLoopRun]
    split
    · split
      · simp
      · split
        · simp
        · split
          · simp
          · simp only [Run.after]
            have := ih (i + 1) vars
            omega
    · split
      · simp
      · split
        · simp
        · rename_i vars1 _
          simp only [Run.after]
          have := ih (i + 1) vars1
          omega

theorem tuplesLoopRun_inBounds (p1 p2 : Tuple) (len1 : Nat) :
    ∀ (n i : Nat) (vars : List (Option Var)), n + i = p2.length → len1 ≤ p2.length →
      ∀ a ∈ (tuplesLoopRun p1 p2 len1 n i vars).accesses,
        a.inBounds len1 p2.length = true := by
  intro n
  induction n with
  | zero => intro i vars _ _ a ha; simp [tuplesLoopRun] at ha
  | succ n ih =>
    intro i vars h2 hle a ha
    have hi2 : i < p2.length := by omega
    rw [tuplesLoopRun] at ha
    split at ha
    · rename_i hlt
      have b1 : Access.inBounds len1 p2.length (.atP1 i) = true := by
        simp [Access.inBounds, hlt]
      have b2 : Access.inBounds len1 p2.length (.atP2 i) = true := by
        simp [Access.inBounds, hi2]
      split at ha
      · simp only [List.mem_singleton] at ha
        rw [ha]; exact b1
      · split at ha
        · simp only [List.mem_cons, List.mem_singleton, List.not_mem_nil, or_false] at ha
          rcases ha with ha | ha <;> rw [ha]
          · exact b1
          · exact b2
        · split at ha
          · simp only [List.mem_cons, List.mem_singleton, List.not_mem_nil, or_false] at ha
            rcases ha with ha | ha <;> rw [ha]
            · exact b1
            · exact b2
          · simp only [Run.after, List.cons_append, List.nil_append, List.mem_cons] at ha
            rcases ha with ha | ha | ha
            · rw [ha]; exact b1
            · rw [ha]; exact b2
            · exact ih (i + 1) vars (by omega) hle a ha
    · rename_i hlt
      have b2 : Access.inBounds len1 p2.length (.atP2 i) = true := by
        simp [Access.inBounds, hi2]
      have b3 : Access.inBounds len1 p2.length (.write ((i : Int) - (len1 : Int))) = true := by
        simp only [Access.inBounds, decide_eq_true_eq]
        omega
      split at ha
      · simp only [List.mem_singleton] at ha
        rw [ha]; exact b2
      · split at ha
        · simp only [List.mem_cons, List.mem_singleton, List.not_mem_nil, or_false] at ha
          rcases ha with ha | ha <;> rw [ha]
          · exact b2
          · exact b3
        · rename_i vars1 _
          simp only [Run.after, List.cons_append, List.nil_append, List.mem_cons] at ha
          rcases ha with ha | ha | ha
          · rw [ha]; exact b2
          · rw [ha]; exact b3
          · exact ih (i + 1) vars1 (by omega) hle a ha

theorem setVar_sub (vars : List (Option Var)) (i len1 : Nat) (v : Var)
    (h1 : len1 ≤ i) (hk : i - len1 < vars.length) :
    setVar vars ((i : Int) - (len1 : Int)) v = some (vars.set (i - len1) (some v)) := by
  have e : ((i : Int) - (len1 : Int)).toNat = i - len1 := by omega
  have c : 0 ≤ (i : Int) - (len1 : Int) ∧ (i : Int) - (len1 : Int) < (vars.length : Int) := by
    omega
  simp only [setVar, c, e]
  simp

/-- Past the shared prefix every remaining iteration runs. -/
theorem tuplesLoopRun_write_iterations (p1 p2 : Tuple) (len1 : Nat) :
    ∀ (n i : Nat) (vars : List (Option Var)), len1 ≤ i → n + i = p2.length →
      vars.length = p2.length - len1 →
      (tuplesLoopRun p1 p2 len1 n i vars).iterations = n := by
  intro n
  induction n with
  | zero => intro i vars _ _ _; simp [tuplesLoopRun]
  | succ n ih =>
    intro i vars h1 h2 h3
    have hi : i < p2.length := by omega
    have hk : i - len1 < vars.length := by omega
    have hlt : ¬ i < len1 := by omega
    rw [tuplesLoopRun]
    simp only [hlt, if_false, Tuple.At, List.get?_eq_getElem?, List.getElem?_eq_getElem hi,
      setVar_sub vars i len1 _ h1 hk, Run.after]
    rw [ih (i + 1) _ (by omega) (by omega) (by simpa using h3)]

/-- When the type strings agree from `i` on, every remaining iteration runs. -/
theorem tuplesLoopRun_agree_iterations (p1 p2 : Tuple) :
    ∀ (n i : Nat) (vars : List (Option Var)), i ≤ p1.length → n + i = p2.length →
      vars.length = p2.length - p1.length →
      (∀ j, i ≤ j → j < p1.length → typeStringAt p1 j = typeStringAt p2 j) →
      (tuplesLoopRun p1 p2 p1.length n i vars).iterations = n := by
  intro n
  induction n with
  | zero => intro i vars _ _ _ _; simp [tuplesLoopRun]
  | succ n ih =>
    intro i vars h1 h2 h3 hag
    rcases Nat.lt_or_ge i p1.length with hlt | hge
    · have hi2 : i < p2.length := by omega
      have hs := hag i (le_refl _) hlt
      rw [typeStringAt_lt p1 i hlt, typeStringAt_lt p2 i hi2] at hs
      have hs1 : p1[i].typ.string = p2[i].typ.string := by simpa using hs
      rw [tuplesLoopRun]
      simp only [hlt, if_true, Tuple.At, List.get?_eq_getElem?, List.getElem?_eq_getElem hlt,
        List.getElem?_eq_getElem hi2]
      simp only [hs1, bne_self_eq_false, Bool.false_eq_true, if_false, Run.after]
      rw [ih (i + 1) vars (by omega) (by omega) h3 (fun j hj hj1 => hag j (by omega) hj1)]
    · exact tuplesLoopRun_write_iterations p1 p2 _ (n + 1) i vars hge h2 h3

/-- When the type strings first differ at `j`, the loop stops in the iteration
for `j`. -/
theorem tuplesLoopRun_mismatch_iterations (p1 p2 : Tuple) (hle : p1.length ≤ p2.length)
    (j : Nat) (hj1 : j < p1.length) (hne : typeStringAt p1 j ≠ typeStringAt p2 j) :
    ∀ (n i : Nat) (vars : List (Option Var)), n + i = p2.length → i ≤ j →
      (∀ k, i ≤ k → k < j → typeStringAt p1 k = typeStringAt p2 k) →
      (tuplesLoopRun p1 p2 p1.length n i vars).iterations = j + 1 - i := by
  intro n
  induction n with
  | zero =>
    intro i vars h2 hj _
    omega
  | succ n ih =>
    intro i vars h2 hj hag
    have hlt : i < p1.length := by omega
    have hi2 : i < p2.length := by omega
    rw [tuplesLoopRun]
    simp only [hlt, if_true, Tuple.At, List.get?_eq_getElem?, List.getElem?_eq_getElem hlt,
      List.getElem?_eq_getElem hi2]
    rcases Nat.eq_or_lt_of_le hj with e | e
    · subst e
      rw [typeStringAt_lt p1 i hlt, typeStringAt_lt p2 i hi2] at hne
      have hs : ¬ p1[i].typ.string = p2[i].typ.string := fun h => hne (by rw [h])
      have : (p1[i].typ.string != p2[i].typ.string) = true := by simpa using hs
      simp only [this, if_true]
      omega
    · have hs := hag i (le_refl _) e
      rw [typeStringAt_lt p1 i hlt, typeStringAt_lt p2 i hi2] at hs
      have hs1 : p1[i].typ.string = p2[i].typ.string := by simpa using hs
      simp only [hs1, bne_self_eq_false, Bool.false_eq_true, if_false, Run.after]
      rw [ih (i + 1) vars (by omega) (by omega) (fun k hk hk1 => hag k (by omega) hk1)]
      omega

/-- C17 as stated fails: for `(int)` against `(string, string)` the lengths
are `1 ≤ 2`, yet the loop runs one iteration, not two: it returns nil at the
mismatch in position `0`. -/
theorem tuplesCompatibleExtra_iterations_counterexample :
    Tuple.Len [⟨"", tInt⟩] ≤ Tuple.Len [⟨"", tString⟩, ⟨"", tString⟩] ∧
      (tuplesCompatibleExtraRun [⟨"", tInt⟩] [⟨"", tString⟩, ⟨"", tString⟩]).iterations = 1 ∧
      (tuplesCompatibleExtraRun [⟨"", tInt⟩] [⟨"", tString⟩, ⟨"", tString⟩]).result
        = some .nil ∧
      ¬ (∀ p1 p2 : Tuple, p1.Len ≤ p2.Len →
        (tuplesCompatibleExtraRun p1 p2).iterations = p2.Len) := by
  refine ⟨by decide, by decide, by decide, fun h => ?_⟩
  have h1 := h [⟨"", tInt⟩] [⟨"", tString⟩, ⟨"", tString⟩] (by decide)
  revert h1
  decide

/-- C17, amended: a run of `tuplesCompatibleExtra` on tuples of lengths `n1`
and `n2` returns the result of `tuplesCompatibleExtra` and does not panic; the
loop runs no iteration and nothing is allocated when `n1 > n2`; it runs exactly
`n2` iterations when `n1 ≤ n2` and the type strings agree at every position of
`p1`; it runs exactly `j + 1` iterations when `n1 ≤ n2` and `j` is the first
position where the type strings differ; it never runs more than `n2`
iterations; and every operation is within bounds: each `p1.At(i)` has
`i < n1`, each `p2.At(i)` has `i < n2`, each write `vars[i-n1]` has
`0 ≤ i-n1 < n2-n1`, and the allocated length `n2-n1` is not negative. -/
theorem tuplesCompatibleExtra_index_safety (p1 p2 : Tuple) :
    (tuplesCompatibleExtraRun p1 p2).result = tuplesCompatibleExtra p1 p2 ∧
      (∃ extra, (tuplesCompatibleExtraRun p1 p2).result = some extra) ∧
      (p1.Len > p2.Len → (tuplesCompatibleExtraRun p1 p2).iterations = 0 ∧
        (tuplesCompatibleExtraRun p1 p2).accesses = []) ∧
      ((p1.Len ≤ p2.Len ∧ ∀ i, i < p1.Len → typeStringAt p1 i = typeStringAt p2 i) →
        (tuplesCompatibleExtraRun p1 p2).iterations = p2.Len) ∧
      (∀ j, p1.Len ≤ p2.Len → j < p1.Len → typeStringAt p1 j ≠ typeStringAt p2 j →
        (∀ i, i < j → typeStringAt p1 i = typeStringAt p2 i) →
        (tuplesCompatibleExtraRun p1 p2).iterations = j + 1) ∧
      (tuplesCompatibleExtraRun p1 p2).iterations ≤ p2.Len ∧
      ∀ a ∈ (tuplesCompatibleExtraRun p1 p2).accesses, a.inBounds p1.Len p2.Len = true := by
  refine ⟨tuplesCompatibleExtraRun_result p1 p2, ?_, ?_, ?_, ?_, ?_, ?_⟩
  · rw [tuplesCompatibleExtraRun_result, tuplesCompatibleExtra_eq]
    exact ⟨_, rfl⟩
  · intro hgt
    simp [tuplesCompatibleExtraRun, hgt]
  · rintro ⟨hle, hag⟩
    simp only [Tuple.Len] at hle hag ⊢
    have hgt : ¬ p1.length > p2.length := by omega
    simp only [tuplesCompatibleExtraRun, Tuple.Len, hgt, if_false, makeVars_sub _ _ hle]
    exact tuplesLoopRun_agree_iterations p1 p2 p2.length 0 _ (Nat.zero_le _) rfl (by simp)
      (fun j _ hj => hag j hj)
  · intro j hle hj hne hag
    simp only [Tuple.Len] at hle hj ⊢
    have hgt : ¬ p1.length > p2.length := by omega
    simp only [tuplesCompatibleExtraRun, Tuple.Len, hgt, if_false, makeVars_sub _ _ hle]
    exact tuplesLoopRun_mismatch_iterations p1 p2 hle j hj hne p2.length 0 _ rfl (Nat.zero_le _)
      (fun k _ hk => hag k hk)
  · simp only [tuplesCompatibleExtraRun, Tuple.Len]
    split
    · exact Nat.zero_le _
    · split
      · exact Nat.zero_le _
      · exact tuplesLoopRun_iterations_le p1 p2 _ _ _ _
  · intro a ha
    simp only [tuplesCompatibleExtraRun, Tuple.Len] at ha ⊢
    split at ha
    · simp at ha
    · rename_i hgt
      have hle : p1.length ≤ p2.length := by omega
      have b0 : Access.inBounds p1.length p2.length
          (.alloc ((p2.length : Int) - (p1.length : Int))) = true := by
        simp only [Access.inBounds, decide_eq_true_eq]
        omega
      split at ha
      · simp only [List.mem_singleton] at ha
        rw [ha]; exact b0
      · simp only [List.mem_cons] at ha
        rcases ha with ha | ha
        · rw [ha]; exact b0
        · exact tuplesLoopRun_inBounds p1 p2 _ _ _ _ (by simp) hle a ha

/-- Witness of C17, amended: for `(int)` against `(int, string)` the run has
two iterations and the operations `make(1)`, `p1.At(0)`, `p2.At(0)`,
`p2.At(1)`, `vars[0] = ...`. -/
theorem tuplesCompatibleExtra_index_safety_witness :
    (tuplesCompatibleExtraRun sigF.params sigGPlain.params).iterations = 2 ∧
      (tuplesCompatibleExtraRun sigF.params sigGPlain.params).accesses
        = [.alloc 1, .atP1 0, .atP2 0, .atP2 1, .write 0] ∧
      (tuplesCompatibleExtraRun sigF.params sigGPlain.params).iterations
        ≤ sigGPlain.params.Len :=
  ⟨by decide, by decide,
    (tuplesCompatibleExtra_index_safety sigF.params sigGPlain.params).2.2.2.2.2.1⟩

end Gompatible
